import Mathlib

/-!
# Verification of the go-fit-graph pipeline (`main.go`)

Shallow embedding of the core pipeline of `main.go`:
rounding utility, record normalizer, deduplicator, chronological sorter,
cumulative-series builder and chart-descriptor builder.

Modelling conventions:
* Go `float64` values are modelled as exact rationals (`ℚ`); the arithmetic
  of the source (division, multiplication by 100, `math.Modf`, `math.Ceil`,
  `math.Floor`) is modelled exactly on those rationals.
* Go `int64` values are modelled as `ℤ`, with truncated (toward zero)
  division `Int.tdiv` matching Go's `/` on integers, and the points where
  Go arithmetic wraps modulo 2^64 modelled explicitly.
* `time.Time` values produced by this program are always
  `time.Unix(sec, 0)` in one fixed location; they are modelled by their
  Unix second count (`ℤ`).  `time.Time.String()` is modelled faithfully
  (`goTimeString`) following the Go standard library (`Time.abs`,
  `absDate`, `absClock`, `Time.Format`), with the fixed location rendered
  as UTC (offset `+0000`, zone name `UTC`); the choice of location only
  shifts the rendered instant by a constant and names the zone, so it does
  not affect any property proved here.
* `sort.Sort` is modelled as the Go standard library's unstable
  introsort (`quickSort` / `doPivot` / `heapSort` / `insertionSort` and the
  gap-6 Shell pass for short ranges), as shipped in the Go releases
  contemporary with this repository (pre-1.19 `sort.go`), with explicit
  fuel for the loops.
-/

namespace FitGraph

/-! ## Rounding utility (`main.go` lines 123–134) -/

/-- Go's `math.Modf` on a rational argument: integer part truncated toward
zero and fractional part, both carrying the sign of the argument. -/
def modf (x : ℚ) : ℚ × ℚ :=
  let i : ℚ := if 0 ≤ x then (⌊x⌋ : ℚ) else (⌈x⌉ : ℚ)
  (i, x - i)

/-- The meters → miles conversion of `main.go` lines 123–134:
`dist := v.FpVal / 1609.344`; `pow := math.Pow(10, 2)`;
`digit := pow * dist`; `_, div := math.Modf(digit)`;
round `digit` up if `div >= 0.5`, else down; result `round / pow`. -/
def metersToMiles (fpVal : ℚ) : ℚ :=
  let dist := fpVal / (1609344 / 1000 : ℚ)
  let pow : ℚ := 10 ^ (2 : ℕ)
  let digit := pow * dist
  let div := (modf digit).2
  let round : ℚ := if div ≥ 1/2 then (⌈digit⌉ : ℚ) else (⌊digit⌋ : ℚ)
  round / pow

/-- The rounding policy in the spec's words: `round2(d)`: compute
`scaled = 100 * d`; if `frac(scaled) >= 0.5` then `ceil(scaled)/100`
else `floor(scaled)/100`. -/
def round2 (d : ℚ) : ℚ :=
  let scaled := 100 * d
  if Int.fract scaled ≥ 1/2 then (⌈scaled⌉ : ℚ) / 100 else (⌊scaled⌋ : ℚ) / 100

/-! ## Go's time model

The program builds every `time.Time` as `time.Unix(sec, 0)` in the one
process-wide location, so a time value is modelled by `sec : ℤ`.
The constants and algorithms below are those of the Go standard library's
`time` package. -/

/-- `absoluteZeroYear` from Go's `time` package. -/
def absoluteZeroYear : Int := -292277022399

/-- `unixToInternal` from Go's `time` package:
`(1969*365 + 1969/4 - 1969/100 + 1969/400) * 86400`. -/
def unixToInternal : Int := 62135596800

/-- `internalToAbsolute = -absoluteToInternal` from Go's `time` package,
where `absoluteToInternal = (absoluteZeroYear - 1) * 365.2425 * 86400`
(exact constant arithmetic). -/
def internalToAbsolute : Int := 9223371966579724800

/-- The shift from Unix seconds to Go's absolute time scale:
`unixToInternal + internalToAbsolute`. -/
def wrapC : Int := unixToInternal + internalToAbsolute

/-- 2^64, the modulus of Go's `uint64` arithmetic. -/
def twoPow64 : Int := 18446744073709551616

/-- 2^63, for `int64` wrap-around. -/
def twoPow63 : Int := 9223372036854775808

/-- `sec` is representable as a Go `int64`. -/
def int64Range (sec : Int) : Prop := -twoPow63 ≤ sec ∧ sec < twoPow63

/-- Go's `Time.abs()` for `time.Unix(sec, 0)` in the modelled fixed
location: `uint64(sec + (unixToInternal + internalToAbsolute))`, the
`int64` addition and `uint64` conversion together acting as reduction
modulo 2^64. -/
def goAbs (sec : Int) : Nat := ((sec + wrapC) % twoPow64).toNat

/-- Go's `int64(u)` reinterpretation of a wrapped difference: reduce into
`[-2^63, 2^63)`. -/
def wrap64 (x : Int) : Int := (x + twoPow63) % twoPow64 - twoPow63

/-- The year-extraction cascade of Go's `absDate`: given the absolute day
number, cut off 400-year, 100-year, 4-year cycles and years, producing the
year relative to `absoluteZeroYear` and the day offset within that year. -/
def yearCascade (d0 : Nat) : Nat × Nat :=
  let n400 := d0 / 146097
  let y0 := 400 * n400
  let d1 := d0 - 146097 * n400
  let n100 := d1 / 36524
  let n100' := n100 - n100 / 4
  let y1 := y0 + 100 * n100'
  let d2 := d1 - 36524 * n100'
  let n4 := d2 / 1461
  let y2 := y1 + 4 * n4
  let d3 := d2 - 1461 * n4
  let n1 := d3 / 365
  let n1' := n1 - n1 / 4
  let y3 := y2 + n1'
  let d4 := d3 - 365 * n1'
  (y3, d4)

/-- Go's `daysSinceEpoch`, already on the year relative to
`absoluteZeroYear`: add back 400-year, 100-year, 4-year cycles and plain
years. -/
def daysSinceEpochRel (y0 : Nat) : Nat :=
  let n400 := y0 / 400
  let y1 := y0 - 400 * n400
  let d0 := 146097 * n400
  let n100 := y1 / 100
  let y2 := y1 - 100 * n100
  let d1 := d0 + 36524 * n100
  let n4 := y2 / 4
  let y3 := y2 - 4 * n4
  let d2 := d1 + 1461 * n4
  d2 + 365 * y3

/-- Go's `daysBefore` table: cumulative day counts at month starts of a
non-leap year. -/
def daysBefore : List Nat := [0, 31, 59, 90, 120, 151, 181, 212, 243, 273, 304, 334, 365]

/-- Go's `isLeap`: `year%4 == 0 && (year%100 != 0 || year%400 == 0)`
(a trunc-remainder equals zero exactly when the Euclidean remainder
does). -/
def goIsLeap (year : Int) : Bool :=
  year % 4 == 0 && (year % 100 != 0 || year % 400 == 0)

/-- The month/day extraction of Go's `absDate` for a day offset within a
non-leap-shaped year: estimate the month as `day/31 + 1` and correct by one
using the `daysBefore` table; returns (month, day-of-month), 1-based. -/
def mdNonLeap (day : Nat) : Nat × Nat :=
  let month := day / 31 + 1
  let endD := daysBefore.getD month 0
  if day ≥ endD then (month + 1, day - endD + 1)
  else (month, day - daysBefore.getD (month - 1) 0 + 1)

/-- Month/day extraction of Go's `absDate` (`full = true` part): in a leap
year, day offsets after Feb 29 are shifted down by one and offset 59 is
Feb 29 itself. -/
def absMonthDay (leap : Bool) (yday : Nat) : Nat × Nat :=
  if leap then
    if yday > 59 then mdNonLeap (yday - 1)
    else if yday = 59 then (2, 29)
    else mdNonLeap yday
  else mdNonLeap yday

/-- Go's `absClock`: split the seconds of the day into hour, minute,
second. -/
def absClock (abs : Nat) : Nat × Nat × Nat :=
  let sec1 := abs % 86400
  let hour := sec1 / 3600
  let sec2 := sec1 - hour * 3600
  let min := sec2 / 60
  let sec3 := sec2 - min * 60
  (hour, min, sec3)

/-- The decimal digit character for `d`. -/
def digitChar (d : Nat) : Char := Char.ofNat (48 + d)

/-- Little-endian decimal digits with explicit fuel (empty for 0). -/
def digsAux : Nat → Nat → List Nat
  | 0, _ => []
  | fuel + 1, n => if n = 0 then [] else n % 10 :: digsAux fuel (n / 10)

/-- Little-endian decimal digits of `n` (empty for 0). -/
def digs (n : Nat) : List Nat := digsAux n n

/-- Big-endian decimal character rendering of `n` (empty for 0). -/
def natStr (n : Nat) : List Char := ((digs n).map digitChar).reverse

/-- Left-pad with `'0'` to width `w`. -/
def padTo (w : Nat) (cs : List Char) : List Char :=
  List.replicate (w - cs.length) '0' ++ cs

/-- Go's `appendInt(b, x, width)`: optional sign, then the decimal digits
of `|x|` zero-padded to `width`. -/
def appendInt (x : Int) (w : Nat) : List Char :=
  if x < 0 then '-' :: padTo w (natStr x.natAbs) else padTo w (natStr x.toNat)

/-- The character-list form of Go's `Time.String()` for the layout
`"2006-01-02 15:04:05.999999999 -0700 MST"` applied to a whole-second time:
the fraction is empty and the zone renders as `+0000 UTC` in the modelled
fixed location. -/
def timeStamp (year : Int) (month day hour min sec : Nat) : List Char :=
  appendInt year 4 ++ '-' :: appendInt (month : Int) 2 ++ '-' :: appendInt (day : Int) 2
    ++ ' ' :: appendInt (hour : Int) 2 ++ ':' :: appendInt (min : Int) 2
    ++ ':' :: appendInt (sec : Int) 2 ++ " +0000 UTC".toList

/-- Model of `time.Unix(sec, 0).String()`: compute the absolute time, run
Go's `absDate`/`absClock`, and format. -/
def goTimeString (sec : Int) : String :=
  let abs := goAbs sec
  let yc := yearCascade (abs / 86400)
  let year : Int := (yc.1 : Int) + absoluteZeroYear
  let md := absMonthDay (goIsLeap year) yc.2
  let hms := absClock abs
  String.mk (timeStamp year md.1 md.2 hms.1 hms.2.1 hms.2.2)

/-- Go's `norm(hi, lo, base)`: carry `lo` into `[0, base)` adjusting
`hi`. -/
def norm (hi lo base : Int) : Int × Int :=
  let p := if lo < 0 then (hi - ((-lo - 1) / base + 1), lo + ((-lo - 1) / base + 1) * base)
           else (hi, lo)
  if p.2 ≥ base then (p.1 + p.2 / base, p.2 - p.2 / base * base) else p

/-- Go's `time.Date(year, month, day, hour, min, sec, 0, loc).Unix()` in
the modelled fixed location: normalize the fields, count days since the
absolute epoch, and shift back to Unix seconds (with the `int64`
reinterpretation wrap). -/
def goDateUnix (year month day hour min sec : Int) : Int :=
  let p1 := norm min sec 60
  let min1 := p1.1
  let sec1 := p1.2
  let p2 := norm hour min1 60
  let hour1 := p2.1
  let min2 := p2.2
  let p3 := norm day hour1 24
  let day1 := p3.1
  let hour2 := p3.2
  let p4 := norm year (month - 1) 12
  let year1 := p4.1
  let month1 := p4.2 + 1
  let d0 : Int := (daysSinceEpochRel (year1 - absoluteZeroYear).toNat : Int)
  let d1 := d0 + (daysBefore.getD (month1 - 1).toNat 0 : Int)
  let d2 := if goIsLeap year1 ∧ 3 ≤ month1 then d1 + 1 else d1
  let d3 := d2 + (day1 - 1)
  let abs := d3 * 86400 + hour2 * 3600 + min2 * 60 + sec1
  wrap64 (abs - wrapC)

/-- Go's `Time.AddDate(0, months, 0).Unix()` for `time.Unix(t, 0)`:
re-extract the calendar fields and rebuild the date with the month
shifted. -/
def addDateMonths (t months : Int) : Int :=
  let abs := goAbs t
  let yc := yearCascade (abs / 86400)
  let year : Int := (yc.1 : Int) + absoluteZeroYear
  let md := absMonthDay (goIsLeap year) yc.2
  let hms := absClock abs
  goDateUnix year ((md.1 : Int) + months) (md.2 : Int) (hms.1 : Int) (hms.2.1 : Int) (hms.2.2 : Int)

/-! ## Data model (`main.go` lines 17–38) -/

/-- One normalized exercise record (`type Activity struct`). `Date` is the
Unix second count of the `time.Unix(sec, 0)` value the program stores. -/
structure Activity where
  Name : String
  Duration : Int
  Distance : ℚ
  Description : String
  Date : Int
  ActivityType : Int
deriving DecidableEq

instance : Inhabited Activity := ⟨⟨"", 0, 0, "", 0, 0⟩⟩

/-- `type Activities []Activity`. -/
abbrev Activities := List Activity

/-! ## Deduplicator (`main.go` lines 40–50) -/

/-- The loop of `removeDuplicates`: the `seen` map keyed on
`activity.Date.String()` is modelled by the list of keys inserted so far
(`seen[k] == false` iff `k` is not in the list). -/
def removeDuplicatesLoop : List Activity → List String → List Activity
  | [], _ => []
  | a :: rest, seen =>
    if goTimeString a.Date ∈ seen then removeDuplicatesLoop rest seen
    else a :: removeDuplicatesLoop rest (goTimeString a.Date :: seen)

/-- `removeDuplicates` from `main.go`: keep the first activity for each
distinct `Date.String()` key, in input order. -/
def removeDuplicates (activities : Activities) : Activities :=
  removeDuplicatesLoop activities []

/-- The same loop keyed directly on the timestamp value instead of its
formatted string (the spec's intended key, for the refinement claim). -/
def removeDuplicatesByDateLoop : List Activity → List Int → List Activity
  | [], _ => []
  | a :: rest, seen =>
    if a.Date ∈ seen then removeDuplicatesByDateLoop rest seen
    else a :: removeDuplicatesByDateLoop rest (a.Date :: seen)

/-- Deduplication keyed on the timestamp value (spec's words: two
activities are the same iff their timestamps are equal). -/
def removeDuplicatesByDate (activities : Activities) : Activities :=
  removeDuplicatesByDateLoop activities []

/-- The spec's description of deduplication: keep, for every distinct
timestamp key, only the first occurrence, in input order. -/
def keepFirstByDate : List Activity → List Activity
  | [] => []
  | a :: rest =>
    a :: keepFirstByDate (rest.filter (fun b => ¬ b.Date = a.Date))
termination_by l => l.length
decreasing_by
  simp only [List.length_cons]
  exact Nat.lt_succ_of_le (List.length_filter_le _ _)

/-! ## Record normalizer (`main.go` lines 108–140)

Only the fields of the Google Fitness API response types that the program
reads are modelled. -/

/-- `fitness.Value`: one sample value (`FpVal`). -/
structure FitValue where
  FpVal : ℚ

/-- `fitness.DataPoint`: carries sample values. -/
structure FitPoint where
  Value : List FitValue

/-- `fitness.Dataset`: a tagged stream of points. -/
structure FitDataset where
  DataSourceId : String
  Point : List FitPoint

/-- The session object attached to a bucket (`bucket.Session`). -/
structure FitBucketSession where
  Description : String

/-- `fitness.AggregateBucket`: one measurement bucket. -/
structure FitBucket where
  StartTimeMillis : Int
  EndTimeMillis : Int
  Session : FitBucketSession
  Dataset : List FitDataset

/-- `fitness.Session`: the outer session record (fields the program
reads). -/
structure FitSession where
  Name : String
  ActivityType : Int

/-- The distance stream the normalizer looks for. -/
def distanceSourceId : String :=
  "derived:com.google.distance.delta:com.google.android.gms:aggregated"

/-- The dataset scan of `main.go` lines 119–138: starting from the zero
initial `Distance`, every value of every point of every dataset whose
source id matches overwrites the activity's distance with its converted
value (last write wins). -/
def bucketDistance (bucket : FitBucket) : ℚ :=
  bucket.Dataset.foldl (fun acc ds =>
    if ds.DataSourceId = distanceSourceId then
      ds.Point.foldl (fun acc2 p =>
        p.Value.foldl (fun _ v => metersToMiles v.FpVal) acc2) acc
    else acc) 0

/-- The normalizer of `main.go` lines 108–139: build one `Activity` from a
session and one of its buckets. -/
def normalizeBucket (session : FitSession) (bucket : FitBucket) : Activity :=
  { Name := session.Name
    Duration := Int.tdiv (Int.tdiv (bucket.EndTimeMillis - bucket.StartTimeMillis) 1000) 60
    Distance := bucketDistance bucket
    Description := bucket.Session.Description
    Date := Int.tdiv bucket.StartTimeMillis 1000
    ActivityType := session.ActivityType }

/-- The last matching raw value of a bucket's distance stream, if any. -/
def lastDistanceValue (bucket : FitBucket) : Option ℚ :=
  ((((bucket.Dataset.filter (fun ds => ds.DataSourceId = distanceSourceId)).map
      FitDataset.Point).flatten.map FitPoint.Value).flatten.map FitValue.FpVal).getLast?

/-! ## Cumulative-series builder (`main.go` lines 146–156) -/

/-- The accumulation loop: skip zero-distance activities; otherwise advance
the running total and emit one x (the date's Unix seconds as a float) and
one y (the running total). -/
def buildSeriesLoop : List Activity → ℚ → List ℚ × List ℚ
  | [], _ => ([], [])
  | a :: rest, totalDist =>
    if a.Distance ≠ 0 then
      ((a.Date : ℚ) :: (buildSeriesLoop rest (totalDist + a.Distance)).1,
        (totalDist + a.Distance) :: (buildSeriesLoop rest (totalDist + a.Distance)).2)
    else buildSeriesLoop rest totalDist

/-- The cumulative series (`xs`, `ys`) built from the activity list with
the running total starting at 0. -/
def buildSeries (activities : Activities) : List ℚ × List ℚ :=
  buildSeriesLoop activities 0

/-! ## Chronological sorter: Go's `sort.Sort` (`main.go` line 144)

`Activities.Less(i, j) = e[i].Date.Before(e[j].Date)`; the algorithm is
the Go standard library's unstable introsort. All loops carry explicit
fuel; the fuel is always sufficient for the concrete inputs evaluated
here. -/

/-- `Activities.Less` on the backing array. -/
def goLess (arr : Array Activity) (i j : Int) : Bool :=
  decide ((arr.get! i.toNat).Date < (arr.get! j.toNat).Date)

/-- `Activities.Swap` on the backing array. -/
def goSwap (arr : Array Activity) (i j : Int) : Array Activity :=
  let x := arr.get! i.toNat
  let y := arr.get! j.toNat
  (arr.set! i.toNat y).set! j.toNat x

/-- Inner loop of `insertionSort`: bubble element `j` down while it is
less than its predecessor. -/
def insertionSortInner (a : Int) : Array Activity → Int → Nat → Array Activity
  | arr, _, 0 => arr
  | arr, j, fuel + 1 =>
    if a < j ∧ goLess arr j (j - 1) then
      insertionSortInner a (goSwap arr j (j - 1)) (j - 1) fuel
    else arr

/-- Outer loop of `insertionSort` over `i = a+1 .. b-1`. -/
def insertionSortOuter (a b : Int) : Array Activity → Int → Nat → Array Activity
  | arr, _, 0 => arr
  | arr, i, fuel + 1 =>
    if i < b then
      insertionSortOuter a b (insertionSortInner a arr i (i.toNat + 1)) (i + 1) fuel
    else arr

/-- Go's `insertionSort(data, a, b)`. -/
def insertionSort (arr : Array Activity) (a b : Int) : Array Activity :=
  insertionSortOuter a b arr (a + 1) (b - a).toNat

/-- Go's `siftDown` loop. -/
def siftDownLoop (hi first : Int) : Array Activity → Int → Nat → Array Activity
  | arr, _, 0 => arr
  | arr, root, fuel + 1 =>
    let child0 := 2 * root + 1
    if child0 ≥ hi then arr
    else
      let child := if child0 + 1 < hi ∧ goLess arr (first + child0) (first + child0 + 1)
                   then child0 + 1 else child0
      if ¬ goLess arr (first + root) (first + child) then arr
      else siftDownLoop hi first (goSwap arr (first + root) (first + child)) child fuel

/-- Heap construction phase of Go's `heapSort`. -/
def heapSortBuild (hi first : Int) : Array Activity → Int → Nat → Array Activity
  | arr, _, 0 => arr
  | arr, i, fuel + 1 =>
    if i ≥ 0 then
      heapSortBuild hi first (siftDownLoop hi first arr i (hi.toNat + 1)) (i - 1) fuel
    else arr

/-- Pop phase of Go's `heapSort`. -/
def heapSortPop (first : Int) : Array Activity → Int → Nat → Array Activity
  | arr, _, 0 => arr
  | arr, i, fuel + 1 =>
    if i ≥ 0 then
      let arr1 := goSwap arr first (first + i)
      heapSortPop first (siftDownLoop i first arr1 0 (i.toNat + 1)) (i - 1) fuel
    else arr

/-- Go's `heapSort(data, a, b)`. -/
def heapSort (arr : Array Activity) (a b : Int) : Array Activity :=
  let first := a
  let hi := b - a
  let arr1 := heapSortBuild hi first arr ((hi - 1) / 2) (hi.toNat + 1)
  heapSortPop first arr1 (hi - 1) (hi.toNat + 1)

/-- Go's `medianOfThree(data, m1, m0, m2)`. -/
def medianOfThree (arr : Array Activity) (m1 m0 m2 : Int) : Array Activity :=
  let arr1 := if goLess arr m1 m0 then goSwap arr m1 m0 else arr
  if goLess arr1 m2 m1 then
    let arr2 := goSwap arr1 m2 m1
    if goLess arr2 m1 m0 then goSwap arr2 m1 m0 else arr2
  else arr1

/-- `doPivot` forward scan: `for ; a < c && data.Less(a, pivot); a++`. -/
def scanLtPivot (arr : Array Activity) (pivot c : Int) : Int → Nat → Int
  | a, 0 => a
  | a, fuel + 1 =>
    if a < c ∧ goLess arr a pivot then scanLtPivot arr pivot c (a + 1) fuel else a

/-- `doPivot` scan: `for ; b < c && !data.Less(pivot, b); b++`. -/
def scanLePivot (arr : Array Activity) (pivot c : Int) : Int → Nat → Int
  | b, 0 => b
  | b, fuel + 1 =>
    if b < c ∧ ¬ goLess arr pivot b then scanLePivot arr pivot c (b + 1) fuel else b

/-- `doPivot` scan: `for ; b < c && data.Less(pivot, c-1); c--`. -/
def scanGtPivot (arr : Array Activity) (pivot b : Int) : Int → Nat → Int
  | c, 0 => c
  | c, fuel + 1 =>
    if b < c ∧ goLess arr pivot (c - 1) then scanGtPivot arr pivot b (c - 1) fuel else c

/-- The main partition loop of `doPivot`. -/
def doPivotLoop1 (pivot : Int) : Array Activity → Int → Int → Nat → Array Activity × Int × Int
  | arr, b, c, 0 => (arr, b, c)
  | arr, b, c, fuel + 1 =>
    let b1 := scanLePivot arr pivot c b (arr.size + 1)
    let c1 := scanGtPivot arr pivot b1 c (arr.size + 1)
    if b1 ≥ c1 then (arr, b1, c1)
    else doPivotLoop1 pivot (goSwap arr b1 (c1 - 1)) (b1 + 1) (c1 - 1) fuel

/-- `doPivot` duplicate-protection scan:
`for ; a < b && !data.Less(b-1, pivot); b--`. -/
def scanEqHi (arr : Array Activity) (pivot a : Int) : Int → Nat → Int
  | b, 0 => b
  | b, fuel + 1 =>
    if a < b ∧ ¬ goLess arr (b - 1) pivot then scanEqHi arr pivot a (b - 1) fuel else b

/-- `doPivot` duplicate-protection scan:
`for ; a < b && data.Less(a, pivot); a++`. -/
def scanLtLo (arr : Array Activity) (pivot b : Int) : Int → Nat → Int
  | a, 0 => a
  | a, fuel + 1 =>
    if a < b ∧ goLess arr a pivot then scanLtLo arr pivot b (a + 1) fuel else a

/-- The duplicate-protection loop of `doPivot`. -/
def doPivotLoop2 (pivot : Int) : Array Activity → Int → Int → Nat → Array Activity × Int × Int
  | arr, a, b, 0 => (arr, a, b)
  | arr, a, b, fuel + 1 =>
    let b1 := scanEqHi arr pivot a b (arr.size + 1)
    let a1 := scanLtLo arr pivot b1 a (arr.size + 1)
    if a1 ≥ b1 then (arr, a1, b1)
    else doPivotLoop2 pivot (goSwap arr a1 (b1 - 1)) (a1 + 1) (b1 - 1) fuel

/-- Go's `doPivot(data, lo, hi)`: median-of-three (or Tukey ninther) pivot
selection, three-way partition, and duplicate protection. Returns the
array and `(midlo, midhi)`. -/
def doPivot (arr0 : Array Activity) (lo hi : Int) : Array Activity × Int × Int :=
  let m := (lo + hi) / 2
  let arrA :=
    if hi - lo > 40 then
      let s := (hi - lo) / 8
      let t1 := medianOfThree arr0 lo (lo + s) (lo + 2 * s)
      let t2 := medianOfThree t1 m (m - s) (m + s)
      medianOfThree t2 (hi - 1) (hi - 1 - s) (hi - 1 - 2 * s)
    else arr0
  let arr1 := medianOfThree arrA lo m (hi - 1)
  let pivot := lo
  let a1 := scanLtPivot arr1 pivot (hi - 1) (lo + 1) (arr1.size + 1)
  let r1 := doPivotLoop1 pivot arr1 a1 (hi - 1) (arr1.size + 1)
  let arr2 := r1.1
  let b2 := r1.2.1
  let c2 := r1.2.2
  let protect0 := hi - c2 < 5
  let r2 :=
    if ¬ protect0 ∧ hi - c2 < (hi - lo) / 4 then
      let s1 := if ¬ goLess arr2 pivot (hi - 1)
                then (goSwap arr2 c2 (hi - 1), c2 + 1, (1 : Nat)) else (arr2, c2, 0)
      let s2 := if ¬ goLess s1.1 (b2 - 1) pivot then (b2 - 1, s1.2.2 + 1) else (b2, s1.2.2)
      let s3 := if ¬ goLess s1.1 m pivot
                then (goSwap s1.1 m (s2.1 - 1), s2.1 - 1, s2.2 + 1) else (s1.1, s2.1, s2.2)
      (s3.1, s3.2.1, s1.2.1, decide (s3.2.2 > 1))
    else (arr2, b2, c2, decide protect0)
  let arr3 := r2.1
  let b3 := r2.2.1
  let c3 := r2.2.2.1
  let protect := r2.2.2.2
  let r3 := if protect then doPivotLoop2 pivot arr3 a1 b3 (arr3.size + 1)
            else (arr3, a1, b3)
  let arr4 := r3.1
  let b4 := r3.2.2
  let arr5 := goSwap arr4 pivot (b4 - 1)
  (arr5, b4 - 1, c3)

/-- The gap-6 Shell pass Go runs on ranges of at most 12 elements. -/
def shellPass (a b : Int) : Array Activity → Int → Nat → Array Activity
  | arr, _, 0 => arr
  | arr, i, fuel + 1 =>
    if i < b then
      let arr1 := if goLess arr i (i - 6) then goSwap arr i (i - 6) else arr
      shellPass a b arr1 (i + 1) fuel
    else arr

/-- Go's `quickSort(data, a, b, maxDepth)` with explicit fuel for the
recursion. -/
def quickSortFuel : Array Activity → Int → Int → Int → Nat → Array Activity
  | arr, _, _, _, 0 => arr
  | arr, a, b, maxDepth, fuel + 1 =>
    if b - a > 12 then
      if maxDepth = 0 then heapSort arr a b
      else
        let r := doPivot arr a b
        let arr1 := r.1
        let mlo := r.2.1
        let mhi := r.2.2
        if mlo - a < b - mhi then
          let arr2 := quickSortFuel arr1 a mlo (maxDepth - 1) fuel
          quickSortFuel arr2 mhi b (maxDepth - 1) fuel
        else
          let arr2 := quickSortFuel arr1 mhi b (maxDepth - 1) fuel
          quickSortFuel arr2 a mlo (maxDepth - 1) fuel
    else if b - a > 1 then
      let arr1 := shellPass a b arr (a + 6) (b - a).toNat
      insertionSort arr1 a b
    else arr

/-- Go's `maxDepth(n)` loop: count bits of `n`. -/
def maxDepthLoop : Int → Nat → Nat → Nat
  | _, depth, 0 => depth
  | i, depth, fuel + 1 =>
    if i > 0 then maxDepthLoop (i / 2) (depth + 1) fuel else depth

/-- Go's `maxDepth(n) = 2 * bitlen(n)`. -/
def goMaxDepth (n : Int) : Int := 2 * (maxDepthLoop n 0 64 : Int)

/-- `sort.Sort(activities)` as the Go standard library executes it. -/
def sortGo (activities : Activities) : Activities :=
  let arr := activities.toArray
  (quickSortFuel arr 0 (arr.size : Int) (goMaxDepth (arr.size : Int)) (2 * arr.size + 64)).toList

/-! ## Chart descriptor builder (`main.go` lines 158–200) -/

/-- `chart.Tick`. -/
structure Tick where
  Value : ℚ
  Label : String
deriving DecidableEq

/-- The fields of `chart.Chart` the program sets: axis names, ticks, and
the series' parallel x/y arrays. -/
structure ChartModel where
  YName : String
  YTicks : List Tick
  XName : String
  XTicks : List Tick
  XValues : List ℚ
  YValues : List ℚ
deriving DecidableEq

/-- The chart construction of `main.go` lines 158–200:
`jan := time.Date(2020, 1, 1, 0, 0, 0, 0, time.Local)`, fixed Y ticks
0–1000 step 100 labelled "Miles", X ticks at `jan.AddDate(0, k, 0)` for
`k = 0..12`, and the series from the cumulative builder. -/
def buildChart (xs ys : List ℚ) : ChartModel :=
  let jan := goDateUnix 2020 1 1 0 0 0
  { YName := "Miles"
    YTicks := [⟨0, "0"⟩, ⟨100, "100"⟩, ⟨200, "200"⟩, ⟨300, "300"⟩, ⟨400, "400"⟩,
               ⟨500, "500"⟩, ⟨600, "600"⟩, ⟨700, "700"⟩, ⟨800, "800"⟩, ⟨900, "900"⟩,
               ⟨1000, "1000"⟩]
    XName := "Date"
    XTicks := [⟨(jan : ℚ), "2020-01"⟩,
               ⟨(addDateMonths jan 1 : ℚ), "2020-02"⟩,
               ⟨(addDateMonths jan 2 : ℚ), "2020-03"⟩,
               ⟨(addDateMonths jan 3 : ℚ), "2020-04"⟩,
               ⟨(addDateMonths jan 4 : ℚ), "2020-05"⟩,
               ⟨(addDateMonths jan 5 : ℚ), "2020-06"⟩,
               ⟨(addDateMonths jan 6 : ℚ), "2020-07"⟩,
               ⟨(addDateMonths jan 7 : ℚ), "2020-08"⟩,
               ⟨(addDateMonths jan 8 : ℚ), "2020-09"⟩,
               ⟨(addDateMonths jan 9 : ℚ), "2020-10"⟩,
               ⟨(addDateMonths jan 10 : ℚ), "2020-11"⟩,
               ⟨(addDateMonths jan 11 : ℚ), "2020-12"⟩,
               ⟨(addDateMonths jan 12 : ℚ), "2021-01"⟩]
    XValues := xs
    YValues := ys }

/-! ## Verification helpers (specification-side definitions) -/

/-- Decimal evaluation of a character list (inverse of the zero-padded
rendering), for the injectivity argument. -/
def evalChars (cs : List Char) : Nat :=
  cs.foldl (fun a c => 10 * a + (c.toNat - 48)) 0

/-- Inverse of `absMonthDay`: the day offset within the year of a given
(month, day-of-month) pair. -/
def ydayFromMD (leap : Bool) (m d : Nat) : Nat :=
  let v := daysBefore.getD (m - 1) 0 + d - 1
  if leap then
    if m = 2 ∧ d = 29 then 59
    else if v ≥ 59 then v + 1 else v
  else v

end FitGraph

namespace FitGraph

/-! ## Theorems -/

theorem modf_frac_of_nonneg (x : ℚ) (h : 0 ≤ x) : (modf x).2 = Int.fract x := by
  simp only [modf, if_pos h]
  rfl

/-- C1: for every non-negative raw distance `m` in meters, the conversion
of `main.go` lines 123–134 returns exactly `round2 (m / 1609.344)` with
`round2` the spec's scale–frac–ceil/floor policy; in particular
`1609.344 m ↦ 1.0 mi`, `804.672 m ↦ 0.5 mi`, `0 m ↦ 0.0 mi`. -/
theorem metersToMiles_round2 (m : ℚ) (h : 0 ≤ m) :
    metersToMiles m = round2 (m / (1609344 / 1000 : ℚ)) ∧
    metersToMiles (1609344 / 1000) = 1 ∧
    metersToMiles (804672 / 1000) = 1 / 2 ∧
    metersToMiles 0 = 0 := by
  refine ⟨?_, by norm_num [metersToMiles, modf], by norm_num [metersToMiles, modf],
    by norm_num [metersToMiles, modf]⟩
  have hpow : (10 : ℚ) ^ (2 : ℕ) = 100 := by norm_num
  unfold metersToMiles round2
  simp only [hpow]
  rw [modf_frac_of_nonneg _ (by positivity)]
  split <;> rfl

/-- Witness for C1 at `m = 1609.344`. -/
theorem metersToMiles_round2_witness :
    metersToMiles (1609344 / 1000) = round2 ((1609344 / 1000 : ℚ) / (1609344 / 1000 : ℚ)) ∧
    metersToMiles (1609344 / 1000) = 1 ∧
    metersToMiles (804672 / 1000) = 1 / 2 ∧
    metersToMiles 0 = 0 :=
  metersToMiles_round2 (1609344 / 1000) (by norm_num)

theorem removeDuplicatesLoop_idem :
    ∀ (acts : List Activity) (seen : List String),
      removeDuplicatesLoop (removeDuplicatesLoop acts seen) seen
        = removeDuplicatesLoop acts seen := by
  intro acts
  induction acts with
  | nil => intro seen; rfl
  | cons a rest ih =>
    intro seen
    by_cases h : goTimeString a.Date ∈ seen
    · rw [removeDuplicatesLoop, if_pos h, ih]
    · rw [removeDuplicatesLoop, if_neg h, removeDuplicatesLoop, if_neg h,
        ih (goTimeString a.Date :: seen)]

/-- C9: `removeDuplicates` is idempotent: deduplicating an
already-deduplicated sequence returns it unchanged, element for element
and in order. -/
theorem removeDuplicates_idempotent (acts : Activities) :
    removeDuplicates (removeDuplicates acts) = removeDuplicates acts :=
  removeDuplicatesLoop_idem acts []

theorem buildSeriesLoop_fst :
    ∀ (acts : List Activity) (t : ℚ),
      (buildSeriesLoop acts t).1
        = (acts.filter (fun a => a.Distance ≠ 0)).map (fun a => (a.Date : ℚ)) := by
  intro acts
  induction acts with
  | nil => intro t; rfl
  | cons a rest ih =>
    intro t
    by_cases h : a.Distance ≠ 0
    · rw [buildSeriesLoop, if_pos h, List.filter_cons_of_pos (by simpa using h),
        List.map_cons, ih]
    · rw [buildSeriesLoop, if_neg h, List.filter_cons_of_neg (by simpa using h)]
      exact ih t

theorem buildSeriesLoop_snd_chain :
    ∀ (acts : List Activity) (t : ℚ), (∀ a ∈ acts, 0 ≤ a.Distance) →
      List.Chain' (· < ·) (buildSeriesLoop acts t).2 ∧
      (∀ y ∈ (buildSeriesLoop acts t).2, t < y) := by
  intro acts
  induction acts with
  | nil => intro t _; exact ⟨List.chain'_nil, by intro y hy; cases hy⟩
  | cons a rest ih =>
    intro t hpos
    have ha : 0 ≤ a.Distance := hpos a (List.mem_cons_self a rest)
    have hrest : ∀ b ∈ rest, 0 ≤ b.Distance := fun b hb => hpos b (List.mem_cons_of_mem a hb)
    by_cases h : a.Distance ≠ 0
    · have hlt : 0 < a.Distance := lt_of_le_of_ne ha (Ne.symm h)
      rw [buildSeriesLoop, if_pos h]
      obtain ⟨hch, hbd⟩ := ih (t + a.Distance) hrest
      refine ⟨?_, ?_⟩
      · refine List.chain'_cons'.2 ⟨?_, hch⟩
        intro y hy
        exact hbd y (List.mem_of_mem_head? hy)
      · intro y hy
        rcases List.mem_cons.1 hy with rfl | hy'
        · linarith
        · have := hbd y hy'
          linarith
    · rw [buildSeriesLoop, if_neg h]
      exact ih t hrest

/-- C4: under the data-model invariant `distanceMiles ≥ 0`, the emitted
cumulative `ys` are non-decreasing, in fact strictly increasing (every
emitted point comes from an activity with positive distance), and when the
input is chronologically sorted the emitted `xs` are non-decreasing. -/
theorem buildSeries_monotone (acts : Activities)
    (hpos : ∀ a ∈ acts, 0 ≤ a.Distance) :
    List.Chain' (· ≤ ·) (buildSeries acts).2 ∧
    List.Chain' (· < ·) (buildSeries acts).2 ∧
    (List.Chain' (fun a b : Activity => a.Date ≤ b.Date) acts →
      List.Chain' (· ≤ ·) (buildSeries acts).1) := by
  obtain ⟨hch, _⟩ := buildSeriesLoop_snd_chain acts 0 hpos
  refine ⟨hch.imp (fun {a b} h => le_of_lt h), hch, ?_⟩
  intro hsorted
  rw [buildSeries, buildSeriesLoop_fst]
  haveI : IsTrans Activity (fun a b : Activity => a.Date ≤ b.Date) :=
    ⟨fun _ _ _ h1 h2 => le_trans h1 h2⟩
  have hpw : List.Pairwise (fun a b : Activity => a.Date ≤ b.Date) acts :=
    List.chain'_iff_pairwise.1 hsorted
  have hpwf : List.Pairwise (fun a b : Activity => a.Date ≤ b.Date)
      (acts.filter (fun a => decide (a.Distance ≠ 0))) :=
    List.Pairwise.sublist (List.filter_sublist acts) hpw
  rw [List.chain'_map]
  refine List.Pairwise.chain' (hpwf.imp ?_)
  intro a b hab
  exact_mod_cast hab

/-- Witness for C4 on a three-activity input. -/
theorem buildSeries_monotone_witness :
    List.Chain' (· ≤ ·) (buildSeries
      [⟨"a", 0, 1/2, "", 100, 0⟩, ⟨"b", 0, 0, "", 150, 0⟩, ⟨"c", 0, 1, "", 200, 0⟩]).2 ∧
    List.Chain' (· < ·) (buildSeries
      [⟨"a", 0, 1/2, "", 100, 0⟩, ⟨"b", 0, 0, "", 150, 0⟩, ⟨"c", 0, 1, "", 200, 0⟩]).2 ∧
    (List.Chain' (fun a b : Activity => a.Date ≤ b.Date)
      [⟨"a", 0, 1/2, "", 100, 0⟩, ⟨"b", 0, 0, "", 150, 0⟩, ⟨"c", 0, 1, "", 200, 0⟩] →
      List.Chain' (· ≤ ·) (buildSeries
        [⟨"a", 0, 1/2, "", 100, 0⟩, ⟨"b", 0, 0, "", 150, 0⟩, ⟨"c", 0, 1, "", 200, 0⟩]).1) :=
  buildSeries_monotone _ (by
    intro a ha
    simp only [List.mem_cons, List.not_mem_nil, or_false] at ha
    rcases ha with rfl | rfl | rfl <;> norm_num)

theorem buildSeriesLoop_skip_zero (a : Activity) (ha : a.Distance = 0) :
    ∀ (l1 l2 : List Activity) (t : ℚ),
      buildSeriesLoop (l1 ++ a :: l2) t = buildSeriesLoop (l1 ++ l2) t := by
  intro l1
  induction l1 with
  | nil =>
    intro l2 t
    simp only [List.nil_append]
    rw [buildSeriesLoop, if_neg (by simp [ha])]
  | cons b l1' ih =>
    intro l2 t
    simp only [List.cons_append]
    by_cases hb : b.Distance ≠ 0
    · rw [buildSeriesLoop, if_pos hb, buildSeriesLoop, if_pos hb, ih]
    · rw [buildSeriesLoop, if_neg hb, buildSeriesLoop, if_neg hb, ih]

/-- C5: an activity with distance exactly `0.0` emits no point and leaves
the running total unchanged: deleting it from the input leaves the whole
output series (both `xs` and `ys`) identical. -/
theorem buildSeries_skip_zero (l1 l2 : List Activity) (a : Activity)
    (ha : a.Distance = 0) :
    buildSeries (l1 ++ a :: l2) = buildSeries (l1 ++ l2) :=
  buildSeriesLoop_skip_zero a ha l1 l2 0

/-- Witness for C5: dropping a zero-distance activity between two others. -/
theorem buildSeries_skip_zero_witness :
    buildSeries ([⟨"a", 0, 1/2, "", 100, 0⟩] ++ ⟨"b", 0, 0, "", 150, 0⟩ ::
        [⟨"c", 0, 1, "", 200, 0⟩])
      = buildSeries ([⟨"a", 0, 1/2, "", 100, 0⟩] ++ [⟨"c", 0, 1, "", 200, 0⟩]) :=
  buildSeries_skip_zero _ _ _ rfl

end FitGraph

namespace FitGraph

theorem getLastD_cons {α : Type} (x acc : α) (l : List α) :
    ((x :: l).getLast?).getD acc = (l.getLast?).getD x := by
  cases l with
  | nil => rfl
  | cons y ys =>
    rw [List.getLast?_cons_cons]
    have hs : ((y :: ys).getLast?).isSome := List.getLast?_isSome.2 (by simp)
    obtain ⟨z, hz⟩ := Option.isSome_iff_exists.1 hs
    rw [hz]
    rfl

theorem getLast?_append_or {α : Type} (l₁ l₂ : List α) :
    (l₁ ++ l₂).getLast? = (l₂.getLast?).or l₁.getLast? := by
  cases h : l₂ with
  | nil => simp
  | cons y ys =>
    rw [List.getLast?_append_of_ne_nil _ (by simp [h]), ← h]
    have hs : (l₂.getLast?).isSome := List.getLast?_isSome.2 (by simp [h])
    obtain ⟨z, hz⟩ := Option.isSome_iff_exists.1 hs
    rw [hz]
    rfl

theorem foldl_overwrite {α β : Type} (f : α → β) :
    ∀ (l : List α) (acc : β), l.foldl (fun _ v => f v) acc = ((l.map f).getLast?).getD acc := by
  intro l
  induction l with
  | nil => intro acc; rfl
  | cons v rest ih =>
    intro acc
    rw [List.foldl_cons, ih, List.map_cons, getLastD_cons]

theorem foldl_points (ps : List FitPoint) :
    ∀ acc : ℚ,
      ps.foldl (fun acc2 p => p.Value.foldl (fun _ v => metersToMiles v.FpVal) acc2) acc
        = ((((ps.map FitPoint.Value).flatten).map
            (fun v => metersToMiles v.FpVal)).getLast?).getD acc := by
  induction ps with
  | nil => intro acc; rfl
  | cons p rest ih =>
    intro acc
    rw [List.foldl_cons, foldl_overwrite, ih, List.map_cons, List.flatten_cons,
      List.map_append, getLast?_append_or]
    cases h : (((rest.map FitPoint.Value).flatten).map (fun v => metersToMiles v.FpVal)).getLast? with
    | none => rfl
    | some z => rfl

theorem foldl_datasets (dss : List FitDataset) :
    ∀ acc : ℚ,
      dss.foldl (fun acc ds =>
          if ds.DataSourceId = distanceSourceId then
            ds.Point.foldl (fun acc2 p =>
              p.Value.foldl (fun _ v => metersToMiles v.FpVal) acc2) acc
          else acc) acc
        = (((((dss.filter (fun ds => ds.DataSourceId = distanceSourceId)).map
              FitDataset.Point).flatten.map FitPoint.Value).flatten.map
                (fun v => metersToMiles v.FpVal)).getLast?).getD acc := by
  induction dss with
  | nil => intro acc; rfl
  | cons ds rest ih =>
    intro acc
    rw [List.foldl_cons]
    by_cases hid : ds.DataSourceId = distanceSourceId
    · rw [if_pos hid, foldl_points, ih, List.filter_cons_of_pos (by simpa using hid),
        List.map_cons, List.flatten_cons, List.map_append, List.flatten_append,
        List.map_append, getLast?_append_or]
      cases h : ((((rest.filter (fun ds => ds.DataSourceId = distanceSourceId)).map
          FitDataset.Point).flatten.map FitPoint.Value).flatten.map
            (fun v => metersToMiles v.FpVal)).getLast? with
      | none => rfl
      | some z => rfl
    · rw [if_neg hid, ih, List.filter_cons_of_neg (by simpa using hid)]

/-- C6: the normalizer's distance is taken from exactly the datasets whose
source id is the derived aggregated distance-delta stream, converting the
last raw value encountered in scan order (last write wins), and stays `0.0`
when no such dataset or value exists. -/
theorem bucketDistance_lastWins (bucket : FitBucket) :
    bucketDistance bucket = ((lastDistanceValue bucket).map metersToMiles).getD 0 := by
  rw [bucketDistance, foldl_datasets, lastDistanceValue]
  have hmm : ∀ L : List FitValue, L.map (fun v => metersToMiles v.FpVal)
      = (L.map FitValue.FpVal).map metersToMiles := by
    intro L
    rw [List.map_map]
    rfl
  rw [hmm, List.getLast?_map]

/-- C7 counterexample: a bucket whose end precedes its start (span
−90000 ms). Go's truncated division gives −1 minute, while the claimed
floor division gives −2. -/
theorem duration_not_floor_counterexample :
    (normalizeBucket ⟨"", 0⟩ ⟨90000, 0, ⟨""⟩, []⟩).Duration = -1 ∧
    Int.fdiv (Int.fdiv ((0 : Int) - 90000) 1000) 60 = -2 := by
  constructor
  · decide
  · decide

/-- C7 (amended): `durationMinutes` is the Go (truncated, toward-zero)
division `(end − start) / 1000 / 60`; this agrees with floor division
whenever `start ≤ end`, and a negative span propagates unchanged as a
negative duration. -/
theorem duration_tdiv (session : FitSession) (bucket : FitBucket) :
    (normalizeBucket session bucket).Duration
      = Int.tdiv (Int.tdiv (bucket.EndTimeMillis - bucket.StartTimeMillis) 1000) 60 ∧
    (bucket.StartTimeMillis ≤ bucket.EndTimeMillis →
      (normalizeBucket session bucket).Duration
        = Int.fdiv (Int.fdiv (bucket.EndTimeMillis - bucket.StartTimeMillis) 1000) 60) := by
  refine ⟨rfl, ?_⟩
  intro h
  have h1 : (0 : Int) ≤ bucket.EndTimeMillis - bucket.StartTimeMillis := by omega
  have h2 : (0 : Int) ≤ (bucket.EndTimeMillis - bucket.StartTimeMillis) / 1000 :=
    Int.ediv_nonneg h1 (by norm_num)
  show Int.tdiv (Int.tdiv (bucket.EndTimeMillis - bucket.StartTimeMillis) 1000) 60 = _
  rw [Int.tdiv_eq_ediv h1 (by norm_num), Int.tdiv_eq_ediv h2 (by norm_num),
    Int.fdiv_eq_ediv _ (by norm_num), Int.fdiv_eq_ediv _ (by norm_num)]

/-- Witness for C7's amended theorem at a 2-minute bucket. -/
theorem duration_tdiv_witness :
    (normalizeBucket ⟨"", 0⟩ ⟨0, 120000, ⟨""⟩, []⟩).Duration
      = Int.tdiv (Int.tdiv ((120000 : Int) - 0) 1000) 60 ∧
    (normalizeBucket ⟨"", 0⟩ ⟨0, 120000, ⟨""⟩, []⟩).Duration
      = Int.fdiv (Int.fdiv ((120000 : Int) - 0) 1000) 60 :=
  ⟨(duration_tdiv ⟨"", 0⟩ ⟨0, 120000, ⟨""⟩, []⟩).1,
    (duration_tdiv ⟨"", 0⟩ ⟨0, 120000, ⟨""⟩, []⟩).2 (by norm_num)⟩

end FitGraph

namespace FitGraph

/-- C8: independent of the input series, the chart's Y axis is named
"Miles" with exactly the 11 labelled ticks 0, 100, …, 1000, and the X axis
has exactly 13 labelled ticks, one per calendar-month boundary from the
anchor 2020-01-01 through 12 months later inclusive, labelled `YYYY-MM`. -/
theorem buildChart_ticks (xs ys : List ℚ) :
    (buildChart xs ys).YName = "Miles" ∧
    (buildChart xs ys).YTicks =
      [⟨0, "0"⟩, ⟨100, "100"⟩, ⟨200, "200"⟩, ⟨300, "300"⟩, ⟨400, "400"⟩, ⟨500, "500"⟩,
        ⟨600, "600"⟩, ⟨700, "700"⟩, ⟨800, "800"⟩, ⟨900, "900"⟩, ⟨1000, "1000"⟩] ∧
    (buildChart xs ys).XTicks =
      [⟨1577836800, "2020-01"⟩, ⟨1580515200, "2020-02"⟩, ⟨1583020800, "2020-03"⟩,
        ⟨1585699200, "2020-04"⟩, ⟨1588291200, "2020-05"⟩, ⟨1590969600, "2020-06"⟩,
        ⟨1593561600, "2020-07"⟩, ⟨1596240000, "2020-08"⟩, ⟨1598918400, "2020-09"⟩,
        ⟨1601510400, "2020-10"⟩, ⟨1604188800, "2020-11"⟩, ⟨1606780800, "2020-12"⟩,
        ⟨1609459200, "2021-01"⟩] ∧
    (buildChart xs ys).XValues = xs ∧ (buildChart xs ys).YValues = ys := by
  refine ⟨rfl, rfl, ?_, rfl, rfl⟩
  have hclosed : (buildChart xs ys).XTicks = (buildChart [] []).XTicks := rfl
  rw [hclosed]
  decide

/-- C3: Go's `sort.Sort` is not stable on `Activities`. On this
eight-element input, the two activities with equal timestamp 5 (named "Y",
input position 3, and "X", input position 7) come out in the order
"X", "Y", the reverse of their input order, although the output is sorted
by date; a stable chronological sort must keep "Y" before "X". -/
theorem sortGo_unstable_example :
    sortGo [⟨"a", 0, 0, "", 0, 0⟩, ⟨"b", 0, 0, "", 9, 0⟩, ⟨"c", 0, 0, "", 1, 0⟩,
            ⟨"Y", 0, 0, "", 5, 0⟩, ⟨"d", 0, 0, "", 2, 0⟩, ⟨"e", 0, 0, "", 3, 0⟩,
            ⟨"f", 0, 0, "", 4, 0⟩, ⟨"X", 0, 0, "", 5, 0⟩]
      = [⟨"a", 0, 0, "", 0, 0⟩, ⟨"c", 0, 0, "", 1, 0⟩, ⟨"d", 0, 0, "", 2, 0⟩,
         ⟨"e", 0, 0, "", 3, 0⟩, ⟨"f", 0, 0, "", 4, 0⟩, ⟨"X", 0, 0, "", 5, 0⟩,
         ⟨"Y", 0, 0, "", 5, 0⟩, ⟨"b", 0, 0, "", 9, 0⟩] := by
  decide

end FitGraph

namespace FitGraph

/-! ### Injectivity of the rendered time string -/

theorem digsAux_eq_digits : ∀ (fuel n : Nat), n ≤ fuel → digsAux fuel n = Nat.digits 10 n := by
  intro fuel
  induction fuel with
  | zero =>
    intro n hn
    have : n = 0 := by omega
    subst this
    simp [digsAux]
  | succ fuel ih =>
    intro n hn
    rw [digsAux]
    by_cases h0 : n = 0
    · subst h0; simp
    · rw [if_neg h0, ih (n / 10) (by omega),
        Nat.digits_def' (by norm_num : (1:ℕ) < 10) (Nat.pos_of_ne_zero h0)]

theorem digs_eq_digits (n : Nat) : digs n = Nat.digits 10 n :=
  digsAux_eq_digits n n le_rfl

theorem digitChar_toNat {d : Nat} (h : d < 10) : (digitChar d).toNat = 48 + d := by
  interval_cases d <;> rfl

theorem digitChar_mem_range {d : Nat} (h : d < 10) :
    48 ≤ (digitChar d).toNat ∧ (digitChar d).toNat ≤ 57 := by
  rw [digitChar_toNat h]
  omega

theorem foldl_zeros (k : Nat) :
    List.foldl (fun a c => 10 * a + (c.toNat - 48)) 0 (List.replicate k '0') = 0 := by
  induction k with
  | zero => rfl
  | succ k ih =>
    rw [List.replicate_succ, List.foldl_cons]
    exact ih

theorem evalChars_padTo (w : Nat) (cs : List Char) :
    evalChars (padTo w cs) = evalChars cs := by
  rw [padTo, evalChars, evalChars, List.foldl_append, foldl_zeros]

theorem evalChars_revDigits :
    ∀ (ds : List Nat), (∀ d ∈ ds, d < 10) →
      evalChars ((ds.map digitChar).reverse) = Nat.ofDigits 10 ds := by
  intro ds
  induction ds with
  | nil => intro _; rfl
  | cons d tl ih =>
    intro hds
    have hd : d < 10 := hds d (List.mem_cons_self d tl)
    have htl : ∀ x ∈ tl, x < 10 := fun x hx => hds x (List.mem_cons_of_mem d hx)
    rw [List.map_cons, List.reverse_cons, evalChars, List.foldl_append, List.foldl_cons,
      List.foldl_nil]
    have hre : (tl.map digitChar).reverse.foldl (fun a c => 10 * a + (c.toNat - 48)) 0
        = evalChars ((tl.map digitChar).reverse) := rfl
    rw [hre, ih htl, digitChar_toNat hd, Nat.ofDigits_cons]
    omega

theorem evalChars_natStr (n : Nat) : evalChars (natStr n) = n := by
  rw [natStr, digs_eq_digits,
    evalChars_revDigits _ (fun d hd => Nat.digits_lt_base (by norm_num) hd),
    Nat.ofDigits_digits]

theorem evalChars_padTo_natStr (w n : Nat) : evalChars (padTo w (natStr n)) = n := by
  rw [evalChars_padTo, evalChars_natStr]

theorem mem_padTo_natStr_range {w n : Nat} {c : Char} (hc : c ∈ padTo w (natStr n)) :
    48 ≤ c.toNat ∧ c.toNat ≤ 57 := by
  rw [padTo] at hc
  rcases List.mem_append.1 hc with h | h
  · have h0 := List.eq_of_mem_replicate h
    subst h0
    constructor <;> decide
  · rw [natStr] at h
    have h2 := List.mem_reverse.1 h
    rcases List.mem_map.1 h2 with ⟨d, hd, rfl⟩
    have hd10 : d < 10 := by
      rw [digs_eq_digits] at hd
      exact Nat.digits_lt_base (by norm_num) hd
    exact digitChar_mem_range hd10

theorem natStr_length_le {n : Nat} (h : n < 100) : (natStr n).length ≤ 2 := by
  rw [natStr, List.length_reverse, List.length_map, digs_eq_digits]
  rcases Nat.eq_zero_or_pos n with rfl | hp
  · simp
  · rw [Nat.digits_len 10 n (by norm_num) (by omega)]
    have h2 : n < 10 ^ 2 := by
      norm_num
      omega
    have := Nat.log_lt_of_lt_pow (by omega : n ≠ 0) h2
    omega

theorem padTo_length_of_le {w : Nat} {cs : List Char} (h : cs.length ≤ w) :
    (padTo w cs).length = w := by
  rw [padTo, List.length_append, List.length_replicate]
  omega

theorem appendInt_natCast_length {n : Nat} (h : n < 100) :
    (appendInt (n : Int) 2).length = 2 := by
  rw [appendInt, if_neg (by omega : ¬ (n : Int) < 0), Int.toNat_natCast]
  exact padTo_length_of_le (natStr_length_le h)

theorem appendInt_inj {x y : Int} {w : Nat} (h : appendInt x w = appendInt y w) : x = y := by
  rw [appendInt, appendInt] at h
  by_cases hx : x < 0 <;> by_cases hy : y < 0
  · rw [if_pos hx, if_pos hy] at h
    injection h with hhead htail
    have hval : x.natAbs = y.natAbs := by
      have hev := congrArg evalChars htail
      rwa [evalChars_padTo_natStr, evalChars_padTo_natStr] at hev
    omega
  · rw [if_pos hx, if_neg hy] at h
    exfalso
    have hm : '-' ∈ padTo w (natStr y.toNat) := by
      rw [← h]
      exact List.mem_cons_self _ _
    have hr := mem_padTo_natStr_range hm
    have h45 : ('-').toNat = 45 := rfl
    omega
  · rw [if_neg hx, if_pos hy] at h
    exfalso
    have hm : '-' ∈ padTo w (natStr x.toNat) := by
      rw [h]
      exact List.mem_cons_self _ _
    have hr := mem_padTo_natStr_range hm
    have h45 : ('-').toNat = 45 := rfl
    omega
  · rw [if_neg hx, if_neg hy] at h
    have hval : x.toNat = y.toNat := by
      have hev := congrArg evalChars h
      rwa [evalChars_padTo_natStr, evalChars_padTo_natStr] at hev
    omega

end FitGraph

namespace FitGraph

theorem cascade_chars (d : Nat) :
    ∃ n400 n100 n4 n1 r,
      yearCascade d = (400 * n400 + 100 * n100 + 4 * n4 + n1, r) ∧
      d = 146097 * n400 + 36524 * n100 + 1461 * n4 + 365 * n1 + r ∧
      n100 ≤ 3 ∧ n4 ≤ 24 ∧ n1 ≤ 3 ∧ r ≤ 365 ∧
      (r = 365 → n1 = 3 ∧ (n4 = 24 → n100 = 3)) := by
  have key : ∀ n400 d1 q100 n100 d2 n4 d3 q1 n1 r : Nat,
      n400 = d / 146097 → d1 = d - 146097 * n400 →
      q100 = d1 / 36524 → n100 = q100 - q100 / 4 →
      d2 = d1 - 36524 * n100 → n4 = d2 / 1461 →
      d3 = d2 - 1461 * n4 → q1 = d3 / 365 → n1 = q1 - q1 / 4 →
      r = d3 - 365 * n1 →
      d = 146097 * n400 + 36524 * n100 + 1461 * n4 + 365 * n1 + r ∧
      n100 ≤ 3 ∧ n4 ≤ 24 ∧ n1 ≤ 3 ∧ r ≤ 365 ∧
      (r = 365 → n1 = 3 ∧ (n4 = 24 → n100 = 3)) := by
    intro n400 d1 q100 n100 d2 n4 d3 q1 n1 r h1 h2 h3 h4 h5 h6 h7 h8 h9 h10
    have hb1 : d1 ≤ 146096 := by omega
    have hb2 : q100 ≤ 4 := by omega
    have hb3 : d2 ≤ 36524 := by omega
    have hb4 : n4 ≤ 24 := by omega
    have hb5 : d3 ≤ 1460 := by omega
    have hb6 : q1 ≤ 4 := by omega
    have hc1 : n100 ≤ 3 := by omega
    have hc3 : n1 ≤ 3 := by omega
    have hc4 : r ≤ 365 := by omega
    have e1 : 146097 * n400 + d1 = d := by omega
    have e2 : 36524 * n100 + d2 = d1 := by omega
    have e3 : 1461 * n4 + d3 = d2 := by omega
    have e4 : 365 * n1 + r = d3 := by omega
    have hl1 : r = 365 → n1 = 3 := by omega
    have hl2 : r = 365 → n4 = 24 → n100 = 3 := by omega
    exact ⟨by omega, hc1, hb4, hc3, hc4, fun h => ⟨hl1 h, hl2 h⟩⟩
  unfold yearCascade
  dsimp only
  exact ⟨_, _, _, _, _, rfl,
    key _ _ _ _ _ _ _ _ _ _ rfl rfl rfl rfl rfl rfl rfl rfl rfl rfl⟩

theorem daysSinceEpochRel_comp (n400 n100 n4 n1 : Nat)
    (h100 : n100 ≤ 3) (h4 : n4 ≤ 24) (h1 : n1 ≤ 3) :
    daysSinceEpochRel (400 * n400 + 100 * n100 + 4 * n4 + n1) =
      146097 * n400 + 36524 * n100 + 1461 * n4 + 365 * n1 := by
  unfold daysSinceEpochRel
  dsimp only
  omega

theorem yearCascade_roundtrip (d : Nat) :
    daysSinceEpochRel (yearCascade d).1 + (yearCascade d).2 = d := by
  obtain ⟨n400, n100, n4, n1, r, hpair, hsum, h100, h4, h1, hr, _⟩ := cascade_chars d
  rw [hpair]
  dsimp only
  rw [daysSinceEpochRel_comp n400 n100 n4 n1 h100 h4 h1]
  omega

theorem yearCascade_yday_le (d : Nat) : (yearCascade d).2 ≤ 365 := by
  obtain ⟨n400, n100, n4, n1, r, hpair, _, _, _, _, hr, _⟩ := cascade_chars d
  rw [hpair]
  exact hr

theorem goIsLeap_add_zero_year (y : Nat) :
    goIsLeap ((y : Int) + absoluteZeroYear) = true ↔
      (y % 4 = 3 ∧ (y % 100 ≠ 99 ∨ y % 400 = 399)) := by
  rw [goIsLeap, absoluteZeroYear]
  simp only [Bool.and_eq_true, Bool.or_eq_true, beq_iff_eq, bne_iff_ne, ne_eq]
  omega

theorem yearCascade_leap_of_yday365 (d : Nat) (h365 : (yearCascade d).2 = 365) :
    goIsLeap (((yearCascade d).1 : Int) + absoluteZeroYear) = true := by
  obtain ⟨n400, n100, n4, n1, r, hpair, hsum, h100, h4, h1, hr, hleap⟩ := cascade_chars d
  rw [hpair] at h365 ⊢
  dsimp only at h365 ⊢
  rw [goIsLeap_add_zero_year]
  obtain ⟨hn1, hn4⟩ := hleap h365
  constructor
  · omega
  · by_cases hq : n4 = 24
    · right
      have := hn4 hq
      omega
    · left
      omega

set_option maxRecDepth 4000 in
theorem mdNonLeap_roundtrip :
    ∀ y, y < 365 → ydayFromMD false (mdNonLeap y).1 (mdNonLeap y).2 = y ∧
      (mdNonLeap y).1 < 100 ∧ (mdNonLeap y).2 < 100 := by decide

set_option maxRecDepth 4000 in
theorem absMonthDay_leap_roundtrip :
    ∀ y, y < 366 → ydayFromMD true (absMonthDay true y).1 (absMonthDay true y).2 = y ∧
      (absMonthDay true y).1 < 100 ∧ (absMonthDay true y).2 < 100 := by decide

theorem absClock_spec (a : Nat) :
    3600 * (absClock a).1 + 60 * (absClock a).2.1 + (absClock a).2.2 = a % 86400 ∧
    (absClock a).1 < 100 ∧ (absClock a).2.1 < 100 ∧ (absClock a).2.2 < 100 := by
  unfold absClock
  dsimp only
  refine ⟨?_, ?_, ?_, ?_⟩ <;> omega

theorem goAbs_cast (s : Int) : (goAbs s : Int) = (s + wrapC) % twoPow64 := by
  rw [goAbs, Int.toNat_of_nonneg (Int.emod_nonneg _ (by norm_num [twoPow64]))]

theorem goAbs_inj {s t : Int} (hs : int64Range s) (ht : int64Range t)
    (h : goAbs s = goAbs t) : s = t := by
  have h1 : ((goAbs s : Nat) : Int) = ((goAbs t : Nat) : Int) := by rw [h]
  rw [goAbs_cast, goAbs_cast] at h1
  rw [int64Range, twoPow63] at hs ht
  rw [wrapC, unixToInternal, internalToAbsolute, twoPow64] at h1
  omega

end FitGraph

namespace FitGraph

theorem timeStamp_norm (year : Int) (mo d h mi s : Nat) :
    timeStamp year mo d h mi s
      = appendInt year 4 ++ ('-' :: (appendInt (mo : Int) 2 ++ ('-' :: (appendInt (d : Int) 2
          ++ (' ' :: (appendInt (h : Int) 2 ++ (':' :: (appendInt (mi : Int) 2
          ++ (':' :: (appendInt (s : Int) 2 ++ " +0000 UTC".toList)))))))))) := by
  rw [timeStamp]
  simp only [List.append_assoc, List.cons_append]

theorem timeStamp_suffix_length (mo d h mi s : Nat)
    (hmo : mo < 100) (hd : d < 100) (hh : h < 100) (hmi : mi < 100) (hs : s < 100) :
    ('-' :: (appendInt (mo : Int) 2 ++ ('-' :: (appendInt (d : Int) 2
      ++ (' ' :: (appendInt (h : Int) 2 ++ (':' :: (appendInt (mi : Int) 2
      ++ (':' :: (appendInt (s : Int) 2 ++ " +0000 UTC".toList)))))))))).length = 25 := by
  have h10 : (" +0000 UTC".toList).length = 10 := rfl
  simp only [List.length_cons, List.length_append, h10,
    appendInt_natCast_length hmo, appendInt_natCast_length hd, appendInt_natCast_length hh,
    appendInt_natCast_length hmi, appendInt_natCast_length hs]

theorem timeStamp_inj {y1 y2 : Int} {mo1 d1 h1 mi1 s1 mo2 d2 h2 mi2 s2 : Nat}
    (hmo1 : mo1 < 100) (hd1 : d1 < 100) (hh1 : h1 < 100) (hmi1 : mi1 < 100) (hs1 : s1 < 100)
    (hmo2 : mo2 < 100) (hd2 : d2 < 100) (hh2 : h2 < 100) (hmi2 : mi2 < 100) (hs2 : s2 < 100)
    (h : timeStamp y1 mo1 d1 h1 mi1 s1 = timeStamp y2 mo2 d2 h2 mi2 s2) :
    y1 = y2 ∧ mo1 = mo2 ∧ d1 = d2 ∧ h1 = h2 ∧ mi1 = mi2 ∧ s1 = s2 := by
  rw [timeStamp_norm, timeStamp_norm] at h
  obtain ⟨hy, hrest⟩ := List.append_inj' h
    (by rw [timeStamp_suffix_length mo1 d1 h1 mi1 s1 hmo1 hd1 hh1 hmi1 hs1,
      timeStamp_suffix_length mo2 d2 h2 mi2 s2 hmo2 hd2 hh2 hmi2 hs2])
  refine ⟨appendInt_inj hy, ?_⟩
  injection hrest with hc1 hrest1
  obtain ⟨hmo, hrest2⟩ := List.append_inj hrest1
    (by rw [appendInt_natCast_length hmo1, appendInt_natCast_length hmo2])
  refine ⟨by exact_mod_cast appendInt_inj hmo, ?_⟩
  injection hrest2 with hc2 hrest3
  obtain ⟨hdd, hrest4⟩ := List.append_inj hrest3
    (by rw [appendInt_natCast_length hd1, appendInt_natCast_length hd2])
  refine ⟨by exact_mod_cast appendInt_inj hdd, ?_⟩
  injection hrest4 with hc3 hrest5
  obtain ⟨hhh, hrest6⟩ := List.append_inj hrest5
    (by rw [appendInt_natCast_length hh1, appendInt_natCast_length hh2])
  refine ⟨by exact_mod_cast appendInt_inj hhh, ?_⟩
  injection hrest6 with hc4 hrest7
  obtain ⟨hmm, hrest8⟩ := List.append_inj hrest7
    (by rw [appendInt_natCast_length hmi1, appendInt_natCast_length hmi2])
  refine ⟨by exact_mod_cast appendInt_inj hmm, ?_⟩
  injection hrest8 with hc5 hrest9
  obtain ⟨hss, _⟩ := List.append_inj hrest9
    (by rw [appendInt_natCast_length hs1, appendInt_natCast_length hs2])
  exact_mod_cast appendInt_inj hss

theorem absMonthDay_spec (d : Nat) :
    ydayFromMD (goIsLeap (((yearCascade d).1 : Int) + absoluteZeroYear))
        (absMonthDay (goIsLeap (((yearCascade d).1 : Int) + absoluteZeroYear))
          (yearCascade d).2).1
        (absMonthDay (goIsLeap (((yearCascade d).1 : Int) + absoluteZeroYear))
          (yearCascade d).2).2 = (yearCascade d).2 ∧
    (absMonthDay (goIsLeap (((yearCascade d).1 : Int) + absoluteZeroYear))
      (yearCascade d).2).1 < 100 ∧
    (absMonthDay (goIsLeap (((yearCascade d).1 : Int) + absoluteZeroYear))
      (yearCascade d).2).2 < 100 := by
  have hle := yearCascade_yday_le d
  cases hleap : goIsLeap (((yearCascade d).1 : Int) + absoluteZeroYear) with
  | false =>
    have hlt : (yearCascade d).2 < 365 := by
      rcases Nat.lt_or_ge (yearCascade d).2 365 with hc | hc
      · exact hc
      · exfalso
        have h365 : (yearCascade d).2 = 365 := by omega
        have hcontra := yearCascade_leap_of_yday365 d h365
        rw [hleap] at hcontra
        exact absurd hcontra (by simp)
    simpa [absMonthDay] using mdNonLeap_roundtrip (yearCascade d).2 hlt
  | true =>
    exact absMonthDay_leap_roundtrip (yearCascade d).2 (by omega)

/-- Injectivity of the modelled `time.Unix(sec, 0).String()` over the
`int64` range of `sec`: the rendered calendar string determines the
instant. -/
theorem goTimeString_inj {s t : Int} (hs : int64Range s) (ht : int64Range t)
    (h : goTimeString s = goTimeString t) : s = t := by
  rw [goTimeString, goTimeString] at h
  injection h with hts
  obtain ⟨hA1, hA2, hA3⟩ := absMonthDay_spec (goAbs s / 86400)
  obtain ⟨hB1, hB2, hB3⟩ := absMonthDay_spec (goAbs t / 86400)
  obtain ⟨hCA, hCA1, hCA2, hCA3⟩ := absClock_spec (goAbs s)
  obtain ⟨hCB, hCB1, hCB2, hCB3⟩ := absClock_spec (goAbs t)
  obtain ⟨hyear, hmo, hdd, hhh, hmm, hss⟩ :=
    timeStamp_inj hA2 hA3 hCA1 hCA2 hCA3 hB2 hB3 hCB1 hCB2 hCB3 hts
  have hY : (yearCascade (goAbs s / 86400)).1 = (yearCascade (goAbs t / 86400)).1 := by
    omega
  have hleapEq : goIsLeap (((yearCascade (goAbs s / 86400)).1 : Int) + absoluteZeroYear)
      = goIsLeap (((yearCascade (goAbs t / 86400)).1 : Int) + absoluteZeroYear) := by
    rw [hY]
  have hyd : (yearCascade (goAbs s / 86400)).2 = (yearCascade (goAbs t / 86400)).2 := by
    rw [← hA1, ← hB1, hmo, hdd, hleapEq]
  have hdays : goAbs s / 86400 = goAbs t / 86400 := by
    rw [← yearCascade_roundtrip (goAbs s / 86400), ← yearCascade_roundtrip (goAbs t / 86400),
      hY, hyd]
  have hmod : goAbs s % 86400 = goAbs t % 86400 := by
    rw [← hCA, ← hCB, hhh, hmm, hss]
  have hAB : goAbs s = goAbs t := by omega
  exact goAbs_inj hs ht hAB

end FitGraph

namespace FitGraph

theorem removeDuplicatesLoop_eq_byDate :
    ∀ (acts : List Activity) (seenD : List Int),
      (∀ a ∈ acts, int64Range a.Date) → (∀ x ∈ seenD, int64Range x) →
      removeDuplicatesLoop acts (seenD.map goTimeString)
        = removeDuplicatesByDateLoop acts seenD := by
  intro acts
  induction acts with
  | nil => intro seenD _ _; rfl
  | cons a rest ih =>
    intro seenD hacts hseen
    have ha : int64Range a.Date := hacts a (List.mem_cons_self _ _)
    have hrest : ∀ b ∈ rest, int64Range b.Date :=
      fun b hb => hacts b (List.mem_cons_of_mem _ hb)
    have hmem : goTimeString a.Date ∈ seenD.map goTimeString ↔ a.Date ∈ seenD := by
      constructor
      · intro hm
        rcases List.mem_map.1 hm with ⟨x, hx, hxs⟩
        have hxa := goTimeString_inj (hseen x hx) ha hxs
        rwa [← hxa]
      · intro hm
        exact List.mem_map_of_mem _ hm
    by_cases hmm : a.Date ∈ seenD
    · rw [removeDuplicatesLoop, if_pos (hmem.2 hmm), removeDuplicatesByDateLoop, if_pos hmm,
        ih seenD hrest hseen]
    · have hseen' : ∀ x ∈ a.Date :: seenD, int64Range x := by
        intro x hx
        rcases List.mem_cons.1 hx with rfl | hx'
        · exact ha
        · exact hseen x hx'
      rw [removeDuplicatesLoop, if_neg (fun hc => hmm (hmem.1 hc)), removeDuplicatesByDateLoop,
        if_neg hmm]
      have hmap : goTimeString a.Date :: seenD.map goTimeString
          = (a.Date :: seenD).map goTimeString := rfl
      rw [hmap, ih (a.Date :: seenD) hrest hseen']

theorem removeDuplicatesByDateLoop_eq_keepFirst :
    ∀ (acts : List Activity) (seen : List Int),
      removeDuplicatesByDateLoop acts seen
        = keepFirstByDate (acts.filter (fun a => decide (¬ a.Date ∈ seen))) := by
  intro acts
  induction acts with
  | nil =>
    intro seen
    simp [keepFirstByDate, removeDuplicatesByDateLoop]
  | cons a rest ih =>
    intro seen
    by_cases hmem : a.Date ∈ seen
    · rw [removeDuplicatesByDateLoop, if_pos hmem,
        List.filter_cons_of_neg (by simpa using hmem)]
      exact ih seen
    · rw [removeDuplicatesByDateLoop, if_neg hmem,
        List.filter_cons_of_pos (by simpa using hmem)]
      simp only [keepFirstByDate]
      congr 1
      rw [ih (a.Date :: seen), List.filter_filter]
      congr 1
      apply List.filter_congr
      intro b _
      by_cases h1 : b.Date = a.Date <;> by_cases h2 : b.Date ∈ seen <;> simp [h1, h2]

/-- C10: the source's string-keyed deduplication (`seen` keyed on
`Date.String()`) is extensionally equal to deduplication keyed directly on
the timestamp value, for activities whose timestamps are `int64`
representable (every timestamp the normalizer builds is): the formatted
string determines the truncated-to-seconds instant. -/
theorem removeDuplicates_string_eq_byDate (acts : Activities)
    (hr : ∀ a ∈ acts, int64Range a.Date) :
    removeDuplicates acts = removeDuplicatesByDate acts := by
  have h := removeDuplicatesLoop_eq_byDate acts [] hr (by intro x hx; cases hx)
  simpa [removeDuplicates, removeDuplicatesByDate] using h

/-- Witness for C10: two equal-second activities with different fields plus
a distinct one. -/
theorem removeDuplicates_string_eq_byDate_witness :
    removeDuplicates [⟨"a", 0, 0, "", 100, 0⟩, ⟨"b", 0, 1, "", 100, 0⟩, ⟨"c", 0, 0, "", 200, 0⟩]
      = removeDuplicatesByDate
        [⟨"a", 0, 0, "", 100, 0⟩, ⟨"b", 0, 1, "", 100, 0⟩, ⟨"c", 0, 0, "", 200, 0⟩] :=
  removeDuplicates_string_eq_byDate _ (by
    intro a ha
    simp only [List.mem_cons, List.not_mem_nil, or_false] at ha
    rcases ha with rfl | rfl | rfl <;> exact ⟨by decide, by decide⟩)

/-- C2: `removeDuplicates` keeps, for each distinct timestamp key, only the
first occurrence in input order (stable); two activities with equal
timestamps but different other fields collapse to the first. Stated for
`int64`-representable timestamps, which is all the program can build. -/
theorem removeDuplicates_keepFirst (acts : Activities)
    (hr : ∀ a ∈ acts, int64Range a.Date) :
    removeDuplicates acts = keepFirstByDate acts := by
  have h1 := removeDuplicatesLoop_eq_byDate acts [] hr (by intro x hx; cases hx)
  have h2 := removeDuplicatesByDateLoop_eq_keepFirst acts []
  have h3 : acts.filter (fun a => decide (¬ a.Date ∈ ([] : List Int))) = acts := by
    apply List.filter_eq_self.2
    intro a _
    simp
  rw [removeDuplicates]
  have hemp : ([] : List String) = ([] : List Int).map goTimeString := rfl
  rw [hemp, h1, h2, h3]

/-- Witness for C2: the duplicate-timestamp pair keeps only its first
member, in input order. -/
theorem removeDuplicates_keepFirst_witness :
    removeDuplicates [⟨"a", 0, 0, "", 100, 0⟩, ⟨"b", 0, 1, "", 100, 0⟩, ⟨"c", 0, 0, "", 200, 0⟩]
      = keepFirstByDate
        [⟨"a", 0, 0, "", 100, 0⟩, ⟨"b", 0, 1, "", 100, 0⟩, ⟨"c", 0, 0, "", 200, 0⟩] :=
  removeDuplicates_keepFirst _ (by
    intro a ha
    simp only [List.mem_cons, List.not_mem_nil, or_false] at ha
    rcases ha with rfl | rfl | rfl <;> exact ⟨by decide, by decide⟩)

end FitGraph
